import Mathlib

/-
Verification of the netcast model/registry core (src/netcast/model.py,
src/netcast/plugin.py, src/netcast/tools/inspection.py) against its
natural-language specification.

The Python code is shallowly embedded: Python objects become Lean structures,
Python dicts become association lists looked up first-match (Python dict keys
are unique, so first-match equals the dict lookup), raising code returns
Except, and mutation becomes explicit state passing.  Object identity, where
the source relies on it (id(component), the __taken__ flag, descriptor
sharing), is embedded as explicit identity numbers or explicit index sharing.
-/

namespace Netcast

deriving instance DecidableEq for Except

/-- Embedded Python values, as far as the claims need them.  `missing` is the
netcast `MISSING` sentinel from `netcast/constants.py` (not under the sources;
modelled from the spec as the distinguished "absent" marker), `pynone` is
Python `None`. -/
inductive PyVal
  | missing
  | pynone
  | int (n : Int)
  | str (s : String)
  | bool (b : Bool)
deriving DecidableEq

/-- Python truthiness of an embedded value, used by `_Feature.__post_init__`
(`if self.func and self.default`).  The `MISSING` sentinel is a plain object
instance, hence truthy by Python default. -/
def truthy : PyVal → Bool
  | PyVal.missing => true
  | PyVal.pynone => false
  | PyVal.int n => decide (n ≠ 0)
  | PyVal.str s => decide (s ≠ "")
  | PyVal.bool b => b

/-- Version values compared by `VersionAwareComponentStack.predicate_version`.
`least` and `greatest` embed the `LEAST` and `GREATEST` sentinels from
`netcast/constants.py`.  Modelled from the spec: that file is not under the
sources, and §4.1 describes them as the unbounded-low and unbounded-high
defaults, i.e. they compare below respectively above every version. -/
inductive NCVer
  | least
  | num (n : Int)
  | greatest
deriving DecidableEq

/-- Ordering on embedded versions: `least` is minimal, `greatest` is maximal,
numeric versions compare as integers. -/
def vle : NCVer → NCVer → Bool
  | NCVer.least, _ => true
  | NCVer.num _, NCVer.least => false
  | NCVer.num a, NCVer.num b => decide (a ≤ b)
  | NCVer.num _, NCVer.greatest => true
  | NCVer.greatest, NCVer.greatest => true
  | NCVer.greatest, _ => false

/-- First-match lookup in an association list.  Embeds Python dict indexing
and `dict.get`: dict keys are unique, so first-match agrees with the dict. -/
def alookup {κ α : Type} [DecidableEq κ] : List (κ × α) → κ → Option α
  | [], _ => none
  | (k, v) :: rest, key => if k = key then some v else alookup rest key

/-- Embedded leaf component (a built `Serializer` instance).  `sid` stands for
the Python object identity `id(component)`; `taken` is the `__taken__` flag;
`vsettings` is the slice of the serializer's `settings` mapping read by the
version predicate; `default` is the component's default value, `missing` when
absent (spec §3: "default (a produced value or absent)"; `serializer.py` is
not under the sources). -/
structure SerializerC where
  sid : Nat
  name : Option String
  typeName : String
  default : PyVal
  vsettings : List (String × NCVer)
  taken : Bool
deriving DecidableEq

/-- VersionAwareComponentStack.predicate_version (model.py lines 183-193),
specialised to the stack's default configuration used by
`Model.__init_subclass__` (settings_version_field = "version", since_field =
"settings[version_added]", until_field = "settings[version_removed]",
default_version = GREATEST, default_since_version = LEAST,
default_until_version = GREATEST).  `combined_getattr` applied to the literal
path "settings[version_added]" dereferences the component's `settings`
mapping at key "version_added" and falls back to the supplied default on a
LookupError (tools/inspection.py lines 28-50 and 53-64), which is what the
two inner lookups embed. -/
def predicate_version (component : SerializerC) (settings : List (String × NCVer)) : Bool :=
  let version := (alookup settings "version").getD NCVer.greatest
  let since_version := (alookup component.vsettings "version_added").getD NCVer.least
  let until_version := (alookup component.vsettings "version_removed").getD NCVer.greatest
  vle since_version version && vle version until_version

/-- Modelled from the spec: calling a built `Serializer` instance with merged
settings (`component(**settings)` inside `transform_serializer`;
`serializer.py` is not under the sources) reconfigures the component, in
particular spec §4.1 "assigns `default_name` as its `name` if none is set".
The identity and the remaining attributes are carried over unchanged. -/
def serializerCall (c : SerializerC) (nm : Option String) : SerializerC :=
  { c with name := match c.name with
                   | some s => some s
                   | none => nm }

/-- ComponentStack.transform_serializer (model.py lines 38-48): a component
whose `__taken__` flag is set is returned unchanged, otherwise the instance is
called with the settings and the result is marked taken.  `nm` is the value
of `settings["name"]` after `transform_component` has defaulted it to the
`default_name` argument. -/
def transform_serializer (component : SerializerC) (nm : Option String) : SerializerC :=
  if component.taken then component
  else { serializerCall component nm with taken := true }

/-- ComponentStack.add (model.py lines 65-78) on an already built leaf
component: `transform_component` (lines 50-63) takes its `Serializer` branch,
`settings.setdefault("name", default_name)` passes the default name down, and
the transformed component is pushed onto the components list and returned. -/
def stackAdd (stack : List SerializerC) (component : SerializerC)
    (default_name : Option String) : SerializerC × List SerializerC :=
  let transformed := transform_serializer component default_name
  (transformed, stack ++ [transformed])

/-- Python sequence index normalisation: a negative index counts from the
end; the result is the in-range natural index, or `none` when the index is
out of range. -/
def pyNorm (len : Nat) (i : Int) : Option Nat :=
  let j := if i < 0 then i + (len : Int) else i
  if 0 ≤ j ∧ j < (len : Int) then some j.toNat else none

/-- ComponentStack.get (model.py lines 106-113): `self._components[index]`
with `IndexError` caught and turned into `None`. -/
def stackGet (components : List SerializerC) (index : Int) : Option SerializerC :=
  match pyNorm components.length index with
  | some j => components[j]?
  | none => none

/-- ComponentStack.pop (model.py lines 100-104): `self._components.pop(index)`
with no exception handler, so an out-of-range index propagates the
`IndexError` to the caller. -/
def stackPop (components : List SerializerC) (index : Int) :
    Except String (SerializerC × List SerializerC) :=
  match pyNorm components.length index with
  | some j =>
    match components[j]? with
    | some c => Except.ok (c, components.eraseIdx j)
    | none => Except.error "IndexError"
  | none => Except.error "IndexError"

/-- Character-list comparison by code point; `strLe` below embeds Python
string comparison, which orders strings lexicographically by code point. -/
def charsLe : List Char → List Char → Bool
  | [], _ => true
  | _ :: _, [] => false
  | c :: cs, d :: ds =>
    if c.toNat < d.toNat then true
    else if d.toNat < c.toNat then false
    else charsLe cs ds

/-- Python string `<=`, lexicographic by code point. -/
def strLe (a b : String) : Bool := charsLe a.data b.data

/-- One runtime `ComponentDescriptor` (model.py lines 206-227) together with
the component it wraps.  The `_value` slot lives on the descriptor object —
which is a class attribute, hence one slot per Model class, not per Model
instance: `ComponentDescriptor.__set__` (line 221) writes `self._value` and
ignores its `instance` argument. -/
structure DescriptorSlot where
  component : SerializerC
  value : PyVal
deriving DecidableEq

/-- Compiled class-level state of a Model subclass.  `descIndex` embeds
`Model._descriptors`: attribute name to descriptor, where the descriptor is
an index into `slots` so that several names (a primary and its aliases) can
share one descriptor object, exactly as `__init_subclass__` stores the seen
primary descriptor under every alias name (model.py line 445).  `slots` holds
the primary descriptors in the order they were created, which is also the
order their components were added to the class's stack. -/
structure ModelClass where
  descIndex : List (String × Nat)
  slots : List DescriptorSlot
deriving DecidableEq

/-- One declared class member scanned by `Model.__init_subclass__`: the
attribute name, the identity `id(component)` of the component instance it
holds (two attributes declaring the same object share `compId`), and the
attributes of that fresh, not yet taken, component instance. -/
structure MemberDecl where
  attr : String
  compId : Nat
  preName : Option String
  typeName : String
  default : PyVal
  vsettings : List (String × NCVer)
deriving DecidableEq

/-- Comparison of members by attribute name, the order `inspect.getmembers`
yields. -/
def memberLe (a b : MemberDecl) : Prop := strLe a.attr b.attr = true

instance : DecidableRel memberLe := fun a b => instDecidableEqBool (strLe a.attr b.attr) true

instance : IsTotal MemberDecl memberLe := by
  constructor
  intro a b
  show strLe a.attr b.attr = true ∨ strLe b.attr a.attr = true
  unfold strLe
  generalize a.attr.data = xs
  generalize b.attr.data = ys
  induction xs generalizing ys with
  | nil => exact Or.inl rfl
  | cons c cs ih =>
    cases ys with
    | nil => exact Or.inr rfl
    | cons d ds =>
      rcases Nat.lt_trichotomy c.toNat d.toNat with h | h | h
      · exact Or.inl (by simp [charsLe, h])
      · rcases ih ds with h2 | h2
        · exact Or.inl (by simp [charsLe, h, h2])
        · exact Or.inr (by simp [charsLe, h, h2])
      · exact Or.inr (by simp [charsLe, h])

instance : IsTrans MemberDecl memberLe := by
  constructor
  intro a b c hab hbc
  show strLe a.attr c.attr = true
  have key : ∀ xs ys zs : List Char,
      charsLe xs ys = true → charsLe ys zs = true → charsLe xs zs = true := by
    intro xs
    induction xs with
    | nil => intro ys zs h1 h2; rfl
    | cons x xs ih =>
      intro ys zs h1 h2
      cases ys with
      | nil => simp [charsLe] at h1
      | cons y ys2 =>
        cases zs with
        | nil => simp [charsLe] at h2
        | cons z zs2 =>
          simp only [charsLe] at h1 h2 ⊢
          rcases Nat.lt_trichotomy x.toNat y.toNat with hxy | hxy | hxy
          · rcases Nat.lt_trichotomy y.toNat z.toNat with hyz | hyz | hyz
            · simp [show x.toNat < z.toNat by omega]
            · simp [show x.toNat < z.toNat by omega]
            · exfalso
              simp [show ¬ y.toNat < z.toNat by omega, hyz] at h2
          · simp [show ¬ x.toNat < y.toNat by omega,
              show ¬ y.toNat < x.toNat by omega] at h1
            rcases Nat.lt_trichotomy y.toNat z.toNat with hyz | hyz | hyz
            · simp [show x.toNat < z.toNat by omega]
            · simp [show ¬ y.toNat < z.toNat by omega,
                show ¬ z.toNat < y.toNat by omega] at h2
              simp [show ¬ x.toNat < z.toNat by omega,
                show ¬ z.toNat < x.toNat by omega]
              exact ih ys2 zs2 h1 h2
            · exfalso
              simp [show ¬ y.toNat < z.toNat by omega, hyz] at h2
          · exfalso
            simp [show ¬ x.toNat < y.toNat by omega, hxy] at h1
  exact key a.attr.data b.attr.data c.attr.data hab hbc


/-- The member scan performed by `inspect.getmembers(cls, is_component)`
(model.py line 429): CPython's `inspect.getmembers` sorts the (name, value)
pairs ascending by attribute name before returning them, so the members are
seen in alphabetical order, not declaration order.  Class attribute names are
distinct, so any sort of the members agrees with CPython's stable sort. -/
def getmembers (ms : List MemberDecl) : List MemberDecl :=
  ms.insertionSort memberLe

/-- One step of the member loop of `Model.__init_subclass__` (model.py lines
428-447).  The accumulator carries the class state under construction and the
`seen` mapping from component identity to the primary descriptor created for
it.  A member whose component identity was already seen only records the
existing descriptor under its attribute name (the alias branch, lines
441-445); a fresh component is added to the class stack (which names it after
the attribute via `default_name` and marks it taken) and gets a new
descriptor (lines 432-440, 445-446). -/
def initSubclassStep (acc : ModelClass × List (Nat × Nat)) (m : MemberDecl) :
    ModelClass × List (Nat × Nat) :=
  let cls := acc.1
  let seen := acc.2
  match alookup seen m.compId with
  | some i => ({ cls with descIndex := cls.descIndex ++ [(m.attr, i)] }, seen)
  | none =>
    let comp0 : SerializerC :=
      { sid := m.compId, name := m.preName, typeName := m.typeName,
        default := m.default, vsettings := m.vsettings, taken := false }
    let transformed := transform_serializer comp0 (some m.attr)
    let i := cls.slots.length
    ({ descIndex := cls.descIndex ++ [(m.attr, i)],
       slots := cls.slots ++ [{ component := transformed, value := PyVal.missing }] },
     seen ++ [(m.compId, i)])

/-- Model.__init_subclass__ with `from_members` (model.py lines 411-451):
scan the declared members with `inspect.getmembers` (alphabetical order) and
fold the member loop over them, starting from an empty fresh stack and an
empty descriptor map. -/
def initSubclass (ms : List MemberDecl) : ModelClass :=
  ((getmembers ms).foldl initSubclassStep
    ({ descIndex := [], slots := [] }, [])).1

/-- Components of the class's stack, in the order `ComponentStack.add`
appended them. -/
def stackComponents (cls : ModelClass) : List SerializerC :=
  cls.slots.map (fun s => s.component)

/-- Model.__setitem__ (model.py lines 396-397):
`self._descriptors[key].__set__(self, value)`.  An unknown key raises
`KeyError`; otherwise `ComponentDescriptor.__set__` (line 221) stores the
value in the descriptor's own `_value` slot, ignoring the `instance`
argument, so the write lands in class-level state shared by every instance.
`inst` is carried to mirror the ignored argument. -/
def modelSetItem (cls : ModelClass) (_inst : Nat) (key : String) (v : PyVal) :
    Except String ModelClass :=
  match alookup cls.descIndex key with
  | none => Except.error "KeyError"
  | some i =>
    match cls.slots[i]? with
    | none => Except.error "KeyError"
    | some s => Except.ok { cls with slots := cls.slots.set i { s with value := v } }

/-- Model.__getitem__ (model.py lines 399-400):
`self._descriptors[key].__get__(self, None)`, which returns the descriptor's
`_value` slot (lines 212-219).  An unknown key raises `KeyError`.  As in
`modelSetItem`, the instance plays no role in where the value is read from. -/
def modelGetItem (cls : ModelClass) (_inst : Nat) (key : String) : Except String PyVal :=
  match alookup cls.descIndex key with
  | none => Except.error "KeyError"
  | some i =>
    match cls.slots[i]? with
    | none => Except.error "KeyError"
    | some s => Except.ok s.value

/-- One iteration of the Model.set_state loop (model.py lines 386-390):
`self[item] = value` inside `try: ... except KeyError: pass`, so an unknown
field name leaves the state untouched. -/
def set_state_step (c : ModelClass) (kv : String × PyVal) : ModelClass :=
  match modelSetItem c 0 kv.1 kv.2 with
  | Except.ok c2 => c2
  | Except.error _ => c

/-- Model.set_state on a mapping (model.py lines 383-390): iterate the
mapping's items and run the assignment loop. -/
def set_state (cls : ModelClass) (state : List (String × PyVal)) : ModelClass :=
  state.foldl set_state_step cls

/-- Names under which `ComponentStack.get_matching_components` (model.py
lines 124-132, through `FilteredComponentStack.get`, lines 148-156) files the
matching components: every component of the stack passing the version
predicate contributes its `name` as a key of the returned dict.  Components
are visited in stack order via in-range indices, which is a plain traversal
of the components list. -/
def matchingNames (components : List SerializerC) (settings : List (String × NCVer)) :
    List String :=
  (components.filter (fun c => predicate_version c settings)).filterMap (fun c => c.name)

/-- Model.get_matching_descriptors (model.py lines 342-347): keep the
descriptors whose name belongs to the namespace of matching component names,
pairing each kept name with the descriptor it indexes. -/
def get_matching_descriptors (cls : ModelClass) (settings : List (String × NCVer)) :
    List (String × DescriptorSlot) :=
  let names := matchingNames (stackComponents cls) settings
  (cls.descIndex.filter (fun p => decide (p.1 ∈ names))).filterMap
    (fun p => (cls.slots[p.2]?).map (fun s => (p.1, s)))

/-- The error raised by Model.get_state (model.py lines 329-332): the
f-string names the component's type (`type(desc.component).__name__`) and the
component's `name` attribute (Python renders a `None` name as "None"). -/
structure MissingValueError where
  typeName : String
  serializerName : String
deriving DecidableEq

/-- The per-field loop of Model.get_state (model.py lines 320-334): take the
descriptor's stored value, fall back to the component's default when it is
`MISSING`, then to the fill value when one was supplied (`fill_value` equal
to `MISSING` means none was), and otherwise raise the missing-value error.
The first failing field aborts the whole call. -/
def get_state_fold (fill_value : PyVal) :
    List (String × DescriptorSlot) → Except MissingValueError (List (String × PyVal))
  | [] => Except.ok []
  | (n, s) :: rest =>
    let v1 := s.value
    let v2 := if v1 = PyVal.missing then s.component.default else v1
    if v2 = PyVal.missing then
      if fill_value = PyVal.missing then
        Except.error
          { typeName := s.component.typeName,
            serializerName := (s.component.name).getD "None" }
      else
        match get_state_fold fill_value rest with
        | Except.error e => Except.error e
        | Except.ok st => Except.ok ((n, fill_value) :: st)
    else
      match get_state_fold fill_value rest with
      | Except.error e => Except.error e
      | Except.ok st => Except.ok ((n, v2) :: st)

/-- Model.get_state (model.py lines 316-336): resolve the currently matching
descriptors and run the per-field loop over them.  `fill_value` equal to
`PyVal.missing` embeds the default `fill_value=MISSING`, i.e. no fill value
supplied. -/
def get_state (cls : ModelClass) (fill_value : PyVal)
    (settings : List (String × NCVer)) :
    Except MissingValueError (List (String × PyVal)) :=
  get_state_fold fill_value (get_matching_descriptors cls settings)

/-- The value get_state produces for one field when a fill value is in play:
the stored value, else the component default, else the fill value (model.py
lines 320-327). -/
def resolveValue (fill_value : PyVal) (s : DescriptorSlot) : PyVal :=
  let v2 := if s.value = PyVal.missing then s.component.default else s.value
  if v2 = PyVal.missing then fill_value else v2

/-- Embedded `_Feature` dataclass (plugin.py lines 43-64).  `func` is the
optional executable hook, embedded by identity (Python functions are always
truthy, `None` is falsy, which `Option.isSome` reproduces); the remaining
fields mirror the dataclass fields, with `default` an arbitrary embedded
value whose dataclass default is Python `None`. -/
structure FeatureS where
  func : Option Nat
  default : PyVal
  disabled : Bool
  override : Bool
  before : Option String
  after : Option String
  pass_method : Bool
  finalizer_takes_result : Bool
  dependent : Bool
deriving DecidableEq

/-- _Feature.__post_init__ (plugin.py lines 55-57): `if self.func and
self.default: raise ValueError(...)` — the guard tests Python truthiness of
both fields, not their presence. -/
def feature_post_init (f : FeatureS) : Except String Unit :=
  if f.func.isSome && truthy f.default then
    Except.error "feature cannot simultaneously hold a func and a value"
  else Except.ok ()

/-- Plugin._feature_predicate (plugin.py lines 31-33) on an embedded feature:
the isinstance check holds by typing, so only `disabled` filters. -/
def feature_predicate (f : FeatureS) : Bool := !f.disabled

/-- The `total_dependents` a capability class ends up with after
`Plugin.__init_subclass__` (plugin.py lines 21-29): the member loop files
each enabled feature as dependent or independent and keeps
`cls.total_dependents = len(dependent)`, i.e. the number of enabled features
whose `dependent` flag is set. -/
def total_dependents_calc (features : List FeatureS) : Nat :=
  ((features.filter feature_predicate).filter (fun f => f.dependent)).length

/-- A registered capability class: its identity and its `total_dependents`
attribute. -/
structure PluginClassS where
  pid : Nat
  total_dependents : Nat
deriving DecidableEq

/-- A concrete serializer class as `get_plugins` sees it: its tuple of direct
base classes, each base either a registered capability or not (a base that is
not a registered capability is simply absent from `subclasses`). -/
structure SerializerClassS where
  bases : List PluginClassS
deriving DecidableEq

/-- Ascending comparison by `total_dependents`, the sort key
`operator.attrgetter('total_dependents')` of `get_plugins`. -/
def pluginLe (a b : PluginClassS) : Prop := a.total_dependents ≤ b.total_dependents

instance : DecidableRel pluginLe := fun a b => Nat.decLe a.total_dependents b.total_dependents

instance : IsTotal PluginClassS pluginLe :=
  ⟨fun a b => Nat.le_total a.total_dependents b.total_dependents⟩

instance : IsTrans PluginClassS pluginLe :=
  ⟨fun _ _ _ hab hbc => Nat.le_trans hab hbc⟩

/-- Plugin.get_plugins (plugin.py lines 35-40): keep the serializer class's
direct bases that appear among `cls.__subclasses__()` (the registered
capability classes, given here by identity), preserving base order, then sort
ascending by `total_dependents`.  Python's `sorted` is a stable sort;
`insertionSort` is stable as well, and the claims do not constrain the order
of ties. -/
def get_plugins (subclasses : List Nat) (serializer_class : SerializerClassS) :
    List PluginClassS :=
  (serializer_class.bases.filter (fun b => decide (b.pid ∈ subclasses))).insertionSort pluginLe

/-- Member declared first in the counterexample class body, with the
alphabetically later attribute name "b". -/
def mDeclB : MemberDecl :=
  { attr := "b", compId := 1, preName := none, typeName := "Int64",
    default := PyVal.missing, vsettings := [] }

/-- Member declared second in the counterexample class body, with the
alphabetically earlier attribute name "a". -/
def mDeclA : MemberDecl :=
  { attr := "a", compId := 2, preName := none, typeName := "Int64",
    default := PyVal.missing, vsettings := [] }

/-- A compiled Model class with a single leaf field "x", used to exercise the
descriptor storage. -/
def clsShared : ModelClass :=
  initSubclass [{ attr := "x", compId := 1, preName := none, typeName := "Int64",
                  default := PyVal.missing, vsettings := [] }]

/-- A leaf component already owned by another live stack: its `__taken__`
flag is set. -/
def compTaken : SerializerC :=
  { sid := 7, name := some "f", typeName := "Int64", default := PyVal.missing,
    vsettings := [], taken := true }

/-- Another component, used as pre-existing content of a stack. -/
def compOther : SerializerC :=
  { sid := 8, name := some "g", typeName := "Int32", default := PyVal.missing,
    vsettings := [], taken := true }

/-- A component with the version window [1, 3] recorded in its settings. -/
def compWindowed : SerializerC :=
  { sid := 3, name := some "v", typeName := "Int64", default := PyVal.missing,
    vsettings := [("version_added", NCVer.num 1), ("version_removed", NCVer.num 3)],
    taken := true }

/-- A compiled Model class with a single leaf field "y" that has no default,
used to exercise the missing-value path of get_state. -/
def clsMissing : ModelClass :=
  initSubclass [{ attr := "y", compId := 4, preName := none, typeName := "Str",
                  default := PyVal.missing, vsettings := [] }]

/-- The descriptor slot `clsMissing` compiles for its field "y": component
named after the attribute, taken, no default, no stored value. -/
def slotMissing : DescriptorSlot :=
  { component := { sid := 4, name := some "y", typeName := "Str",
                   default := PyVal.missing, vsettings := [], taken := true },
    value := PyVal.missing }

/-- A compiled Model class declaring the attributes "x1" and "x2" with the
same component object (same identity 5), so "x1" becomes the primary binding
and "x2" an alias sharing its descriptor. -/
def clsAliased : ModelClass :=
  initSubclass
    [{ attr := "x1", compId := 5, preName := none, typeName := "Int64",
       default := PyVal.missing, vsettings := [] },
     { attr := "x2", compId := 5, preName := none, typeName := "Int64",
       default := PyVal.missing, vsettings := [] }]

/-- A compiled Model class with two independent leaf fields "u" and "w". -/
def clsTwoFields : ModelClass :=
  initSubclass
    [{ attr := "u", compId := 6, preName := none, typeName := "Int64",
       default := PyVal.int 0, vsettings := [] },
     { attr := "w", compId := 9, preName := none, typeName := "Str",
       default := PyVal.missing, vsettings := [] }]

/-- Writing through one of two names that share a descriptor is observed when
reading through the other, and only the shared slot changes.  This is the
runtime shape `__init_subclass__` gives an alias: `_descriptors` stores the
primary `ComponentDescriptor` object under the alias name as well (model.py
line 445), and `Model.__setitem__`/`__getitem__`/`__setattr__` all route
through `_descriptors`, so both names read and write the primary descriptor's
single `_value` slot. -/
theorem shared_slot_write_read (cls : ModelClass) (a p : String) (i : Nat) (v : PyVal)
    (ha : alookup cls.descIndex a = some i)
    (hp : alookup cls.descIndex p = some i)
    (hi : i < cls.slots.length) :
    ∃ cls2, modelSetItem cls 0 a v = Except.ok cls2
      ∧ modelGetItem cls2 1 p = Except.ok v
      ∧ cls2.descIndex = cls.descIndex
      ∧ ∀ j, j ≠ i → cls2.slots[j]? = cls.slots[j]? := by
  have hget : cls.slots[i]? = some cls.slots[i] := List.getElem?_eq_getElem hi
  refine ⟨{ cls with slots := cls.slots.set i { cls.slots[i] with value := v } },
    ?_, ?_, rfl, ?_⟩
  · simp [modelSetItem, ha, hget]
  · simp [modelGetItem, hp, List.getElem?_set_self hi]
  · intro j hj
    exact List.getElem?_set_ne (Ne.symm hj)

/-- The normalisation of a Python sequence index yields no position exactly
on genuinely out-of-range indices. -/
theorem pyNorm_eq_none (len : Nat) (i : Int)
    (h : (len : Int) ≤ i ∨ i < -(len : Int)) : pyNorm len i = none := by
  by_cases hi : i < 0
  · simp [pyNorm, hi]
    omega
  · simp [pyNorm, hi]
    omega

/-- C1.  The claim says leaf field storage is instance-scoped: writing "x" on
instance 0 must leave what instance 1 reads unchanged.  The code stores the
value in `ComponentDescriptor._value` (model.py line 222), a slot of the
class-level descriptor object, so after instance 0 writes 5, instance 1 reads
5 instead of the `MISSING` it observed before — leaf storage is shared across
all instances of the class, contradicting the claim (and resolving spec §9's
open question the opposite way from the spec's stated intent). -/
theorem C1_write_visible_across_instances :
    modelGetItem clsShared 1 "x" = Except.ok PyVal.missing
    ∧ (∃ cls2, modelSetItem clsShared 0 "x" (PyVal.int 5) = Except.ok cls2
        ∧ modelGetItem cls2 1 "x" = Except.ok (PyVal.int 5))
    ∧ PyVal.int 5 ≠ PyVal.missing := by
  refine ⟨by decide, ⟨_, rfl, ?_⟩, by decide⟩
  decide

/-- C2 counterexample.  A leaf component already owned by another live stack
(`__taken__` set) is not rejected by `add`: `transform_serializer` (model.py
lines 44-45) returns it unchanged and `add` pushes it, so the component is
inserted into the second stack and no construction error is raised —
refuting the claim that `add(c)` raises instead of inserting. -/
theorem C2_counterexample_taken_component_inserted :
    compTaken.taken = true
    ∧ stackAdd [] compTaken none = (compTaken, [compTaken]) :=
  ⟨rfl, rfl⟩

/-- C2 amended.  Adding a leaf component whose `__taken__` flag is set never
raises: the component is returned as is and appended to the stack, becoming
shared between its previous owner and the new stack. -/
theorem C2_amended_taken_component_shared (stack : List SerializerC)
    (c : SerializerC) (nm : Option String) (h : c.taken = true) :
    stackAdd stack c nm = (c, stack ++ [c]) := by
  simp [stackAdd, transform_serializer, h]

/-- C2 amended, witness at a concrete taken component and non-empty second
stack. -/
theorem C2_amended_taken_component_shared_witness :
    stackAdd [compOther] compTaken (some "h")
      = (compTaken, [compOther, compTaken]) :=
  C2_amended_taken_component_shared [compOther] compTaken (some "h") rfl

/-- C3.  For a Model class whose binding map sends an alias name `a` and its
primary name `p` to the same descriptor (the compiled form of an alias,
model.py lines 441-446): writing v through `a` and reading through `p`
returns v, writing v through `p` and reading through `a` returns v, and in
both directions the binding map is unchanged and only the one shared slot is
written — the alias holds no storage of its own. -/
theorem C3_alias_primary_share_storage (cls : ModelClass) (a p : String) (i : Nat)
    (v : PyVal)
    (ha : alookup cls.descIndex a = some i)
    (hp : alookup cls.descIndex p = some i)
    (hi : i < cls.slots.length) :
    (∃ cls2, modelSetItem cls 0 a v = Except.ok cls2
      ∧ modelGetItem cls2 1 p = Except.ok v
      ∧ cls2.descIndex = cls.descIndex
      ∧ ∀ j, j ≠ i → cls2.slots[j]? = cls.slots[j]?)
    ∧ (∃ cls2, modelSetItem cls 0 p v = Except.ok cls2
      ∧ modelGetItem cls2 1 a = Except.ok v
      ∧ cls2.descIndex = cls.descIndex
      ∧ ∀ j, j ≠ i → cls2.slots[j]? = cls.slots[j]?) :=
  ⟨shared_slot_write_read cls a p i v ha hp hi,
   shared_slot_write_read cls p a i v hp ha hi⟩

/-- C3, witness on the compiled class declaring "x1" and "x2" with one
component object: "x1" is the primary binding, "x2" the alias, both mapped to
descriptor 0. -/
theorem C3_alias_primary_share_storage_witness :
    (∃ cls2, modelSetItem clsAliased 0 "x2" (PyVal.int 9) = Except.ok cls2
      ∧ modelGetItem cls2 1 "x1" = Except.ok (PyVal.int 9)
      ∧ cls2.descIndex = clsAliased.descIndex
      ∧ ∀ j, j ≠ 0 → cls2.slots[j]? = clsAliased.slots[j]?)
    ∧ (∃ cls2, modelSetItem clsAliased 0 "x1" (PyVal.int 9) = Except.ok cls2
      ∧ modelGetItem cls2 1 "x2" = Except.ok (PyVal.int 9)
      ∧ cls2.descIndex = clsAliased.descIndex
      ∧ ∀ j, j ≠ 0 → cls2.slots[j]? = clsAliased.slots[j]?) :=
  C3_alias_primary_share_storage clsAliased "x2" "x1" 0 (PyVal.int 9)
    (by decide) (by decide) (by decide)

/-- C4 counterexample.  A class body declaring "b" before "a" compiles to a
stack ordered ["a", "b"]: `inspect.getmembers` (model.py line 429) hands the
members over sorted by attribute name, so stack order is alphabetical, not
declaration order — refuting the claim for any non-alphabetical
declaration. -/
theorem C4_counterexample_alphabetical_not_declaration :
    (stackComponents (initSubclass [mDeclB, mDeclA])).map (fun c => c.name)
      = [some "a", some "b"]
    ∧ [mDeclB, mDeclA].map (fun m => some m.attr) = [some "b", some "a"]
    ∧ ([some "a", some "b"] : List (Option String)) ≠ [some "b", some "a"] :=
  ⟨by decide, by decide, by decide⟩

/-- A lookup that misses the left part of an appended association list
continues in the right part. -/
theorem alookup_append_left_none {κ α : Type} [DecidableEq κ]
    (s t : List (κ × α)) (k : κ) (hs : alookup s k = none) :
    alookup (s ++ t) k = alookup t k := by
  induction s with
  | nil => rfl
  | cons kv rest ih =>
    obtain ⟨k1, v1⟩ := kv
    by_cases hk : k1 = k
    · simp [alookup, hk] at hs
    · simp only [alookup, List.cons_append, if_neg hk] at hs ⊢
      exact ih hs

/-- Folding the member loop over members whose component identities are fresh
(not yet seen) and mutually distinct appends, per member in the order
processed, exactly one slot holding the transformed fresh component. -/
theorem initSubclass_fold_slots :
    ∀ (l : List MemberDecl) (acc : ModelClass × List (Nat × Nat)),
      (l.map (fun m => m.compId)).Nodup →
      (∀ m ∈ l, alookup acc.2 m.compId = none) →
      ((l.foldl initSubclassStep acc).1).slots
        = acc.1.slots ++ l.map (fun m =>
            { component := transform_serializer
                { sid := m.compId, name := m.preName, typeName := m.typeName,
                  default := m.default, vsettings := m.vsettings, taken := false }
                (some m.attr),
              value := PyVal.missing }) := by
  intro l
  induction l with
  | nil =>
    intro acc _ _
    simp
  | cons m rest ih =>
    intro acc hnd hseen
    have hm : alookup acc.2 m.compId = none := hseen m (List.mem_cons_self m rest)
    have hstep : initSubclassStep acc m
        = ({ descIndex := acc.1.descIndex ++ [(m.attr, acc.1.slots.length)],
             slots := acc.1.slots ++
               [{ component := transform_serializer
                    { sid := m.compId, name := m.preName, typeName := m.typeName,
                      default := m.default, vsettings := m.vsettings, taken := false }
                    (some m.attr),
                  value := PyVal.missing }] },
           acc.2 ++ [(m.compId, acc.1.slots.length)]) := by
      simp [initSubclassStep, hm]
    have hhead : m.compId ∉ rest.map (fun m2 => m2.compId) :=
      (List.nodup_cons.mp (by simpa using hnd)).1
    rw [List.foldl_cons, hstep,
      ih _ ((List.nodup_cons.mp (by simpa using hnd)).2) ?fresh]
    · simp
    case fresh =>
      intro m2 hm2
      have hne : m2.compId ≠ m.compId := by
        intro e
        exact hhead (e ▸ List.mem_map.mpr ⟨m2, hm2, rfl⟩)
      rw [alookup_append_left_none _ _ _ (hseen m2 (List.mem_cons_of_mem m hm2))]
      simp [alookup]
      omega

/-- C4 amended.  Class-time compilation adds one component per distinct
declared component object to the class's stack, but in ascending alphabetical
attribute-name order — the order `inspect.getmembers` yields — rather than
declaration order; each fresh component is named after its attribute.  Stack
order therefore equals declaration order only when the declared names are
already alphabetical. -/
theorem C4_amended_alphabetical_order (ms : List MemberDecl)
    (hids : (ms.map (fun m => m.compId)).Nodup)
    (hpre : ∀ m ∈ ms, m.preName = none) :
    ((stackComponents (initSubclass ms)).map (fun c => c.name)
        = (getmembers ms).map (fun m => some m.attr))
    ∧ List.Pairwise memberLe (getmembers ms)
    ∧ (getmembers ms).Perm ms := by
  have hperm : (getmembers ms).Perm ms := List.perm_insertionSort memberLe ms
  have hnd2 : ((getmembers ms).map (fun m => m.compId)).Nodup :=
    ((hperm.map (fun m => m.compId)).nodup_iff).mpr hids
  have hfold := initSubclass_fold_slots (getmembers ms)
    ({ descIndex := [], slots := [] }, []) hnd2 (by intro m _; rfl)
  refine ⟨?_, List.sorted_insertionSort memberLe ms, hperm⟩
  unfold stackComponents initSubclass
  rw [hfold]
  simp only [List.nil_append, List.map_map]
  apply List.map_congr_left
  intro m hm
  have hp : m.preName = none := hpre m (hperm.subset hm)
  simp [Function.comp, transform_serializer, serializerCall, hp]

/-- C4 amended, witness: declaring "b" before "a" yields the alphabetical
stack ["a", "b"], sorted members, and a permutation of the declaration. -/
theorem C4_amended_alphabetical_order_witness :
    ((stackComponents (initSubclass [mDeclB, mDeclA])).map (fun c => c.name)
        = (getmembers [mDeclB, mDeclA]).map (fun m => some m.attr))
    ∧ List.Pairwise memberLe (getmembers [mDeclB, mDeclA])
    ∧ (getmembers [mDeclB, mDeclA]).Perm [mDeclB, mDeclA] :=
  C4_amended_alphabetical_order [mDeclB, mDeclA] (by decide) (by decide)

/-- C5 counterexample.  On an empty stack every index is outside 0..size-1,
yet `pop(0)` is not a no-op: `ComponentStack.pop` (model.py lines 100-104)
has no exception handler, so the `IndexError` of `list.pop` propagates to the
caller; only `get` reports absence as `None`. -/
theorem C5_counterexample_pop_propagates :
    stackPop ([] : List SerializerC) 0 = Except.error "IndexError"
    ∧ stackGet ([] : List SerializerC) 0 = none :=
  ⟨rfl, rfl⟩

/-- C5 amended.  For every index with no corresponding element under Python
index semantics (i ≥ size, or i < -size after negative-index wrap-around),
`get` reports the component as absent without an error, while `pop`
propagates an `IndexError` to the caller rather than being a no-op. -/
theorem C5_amended_get_absent_pop_raises (components : List SerializerC) (i : Int)
    (h : (components.length : Int) ≤ i ∨ i < -(components.length : Int)) :
    stackGet components i = none
    ∧ stackPop components i = Except.error "IndexError" := by
  have hn : pyNorm components.length i = none := pyNorm_eq_none components.length i h
  constructor
  · simp [stackGet, hn]
  · simp [stackPop, hn]

/-- C5 amended, witness on a one-element stack with index 5. -/
theorem C5_amended_get_absent_pop_raises_witness :
    stackGet [compTaken] 5 = none
    ∧ stackPop [compTaken] 5 = Except.error "IndexError" :=
  C5_amended_get_absent_pop_raises [compTaken] 5 (by decide)

/-- C6.  For a component carrying the window [s, u] in its settings and a
context whose "version" entry is v, the default applicability predicate
accepts exactly when s ≤ v ≤ u; the boundaries v = s and v = u are accepted,
v = s-1 and v = u+1 rejected, and a missing lower respectively upper bound
defaults to unbounded-low respectively unbounded-high. -/
theorem C6_version_window (s u v : Int) (comp : SerializerC)
    (hs : alookup comp.vsettings "version_added" = some (NCVer.num s))
    (hu : alookup comp.vsettings "version_removed" = some (NCVer.num u))
    (hsu : s ≤ u) :
    (predicate_version comp [("version", NCVer.num v)] = true ↔ (s ≤ v ∧ v ≤ u))
    ∧ predicate_version comp [("version", NCVer.num s)] = true
    ∧ predicate_version comp [("version", NCVer.num u)] = true
    ∧ predicate_version comp [("version", NCVer.num (s - 1))] = false
    ∧ predicate_version comp [("version", NCVer.num (u + 1))] = false
    ∧ (∀ c2 : SerializerC, ∀ w : Int,
        alookup c2.vsettings "version_added" = none →
        alookup c2.vsettings "version_removed" = some (NCVer.num u) →
        (predicate_version c2 [("version", NCVer.num w)] = true ↔ w ≤ u))
    ∧ (∀ c3 : SerializerC, ∀ w : Int,
        alookup c3.vsettings "version_added" = some (NCVer.num s) →
        alookup c3.vsettings "version_removed" = none →
        (predicate_version c3 [("version", NCVer.num w)] = true ↔ s ≤ w)) := by
  have key : ∀ w : Int, predicate_version comp [("version", NCVer.num w)]
      = (decide (s ≤ w) && decide (w ≤ u)) := by
    intro w
    simp [predicate_version, alookup, hs, hu, vle]
  refine ⟨?_, ?_, ?_, ?_, ?_, ?_, ?_⟩
  · rw [key]; simp
  · rw [key]; simp [hsu]
  · rw [key]; simp [hsu]
  · rw [key]
    have hb : ¬ (s ≤ s - 1) := by omega
    simp [hb]
  · rw [key]
    have hb : ¬ (u + 1 ≤ u) := by omega
    simp [hb]
  · intro c2 w h1 h2
    simp [predicate_version, alookup, h1, h2, vle]
  · intro c3 w h1 h2
    simp [predicate_version, alookup, h1, h2, vle]

/-- C6, witness at the concrete window [1, 3] and version 2. -/
theorem C6_version_window_witness :
    (predicate_version compWindowed [("version", NCVer.num 2)] = true ↔ (1 ≤ (2:Int) ∧ (2:Int) ≤ 3))
    ∧ predicate_version compWindowed [("version", NCVer.num 1)] = true
    ∧ predicate_version compWindowed [("version", NCVer.num 3)] = true
    ∧ predicate_version compWindowed [("version", NCVer.num (1 - 1))] = false
    ∧ predicate_version compWindowed [("version", NCVer.num (3 + 1))] = false
    ∧ (∀ c2 : SerializerC, ∀ w : Int,
        alookup c2.vsettings "version_added" = none →
        alookup c2.vsettings "version_removed" = some (NCVer.num 3) →
        (predicate_version c2 [("version", NCVer.num w)] = true ↔ w ≤ 3))
    ∧ (∀ c3 : SerializerC, ∀ w : Int,
        alookup c3.vsettings "version_added" = some (NCVer.num 1) →
        alookup c3.vsettings "version_removed" = none →
        (predicate_version c3 [("version", NCVer.num w)] = true ↔ 1 ≤ w)) :=
  C6_version_window 1 3 2 compWindowed rfl rfl (by decide)

/-- In an association list with distinct keys, lookup finds any member at its
key. -/
theorem alookup_eq_of_mem {κ α : Type} [DecidableEq κ] :
    ∀ (l : List (κ × α)) (k : κ) (x : α),
      (l.map Prod.fst).Nodup → (k, x) ∈ l → alookup l k = some x := by
  intro l
  induction l with
  | nil => intro k x _ hmem; cases hmem
  | cons kv rest ih =>
    intro k x hnd hmem
    obtain ⟨k1, v1⟩ := kv
    rcases List.mem_cons.mp hmem with he | ht
    · cases he
      simp [alookup]
    · have hk1 : k1 ≠ k := by
        intro e
        subst e
        have hhead : k1 ∉ rest.map Prod.fst := (List.nodup_cons.mp (by simpa using hnd)).1
        exact hhead (List.mem_map.mpr ⟨(k1, x), ht, rfl⟩)
      simp only [alookup, if_neg hk1]
      exact ih k x (List.nodup_cons.mp (by simpa using hnd)).2 ht

/-- Lookup commutes with mapping each entry value through `resolveValue`. -/
theorem alookup_map_resolve (fill_value : PyVal) :
    ∀ (l : List (String × DescriptorSlot)) (k : String) (x : DescriptorSlot),
      alookup l k = some x →
      alookup (l.map (fun q => (q.1, resolveValue fill_value q.2))) k
        = some (resolveValue fill_value x) := by
  intro l
  induction l with
  | nil => intro k x h; simp [alookup] at h
  | cons kv rest ih =>
    intro k x h
    obtain ⟨k1, v1⟩ := kv
    by_cases hk : k1 = k
    · subst hk
      simp only [alookup, if_pos rfl] at h
      cases h
      simp [alookup]
    · simp only [alookup, if_neg hk] at h
      simp only [List.map_cons, alookup, if_neg hk]
      exact ih k x h

/-- With a genuine fill value, the get_state loop never fails and resolves
each field through stored value, default, fill value, in that order. -/
theorem get_state_fold_fill (fill_value : PyVal) (hf : fill_value ≠ PyVal.missing) :
    ∀ l : List (String × DescriptorSlot),
      get_state_fold fill_value l
        = Except.ok (l.map (fun q => (q.1, resolveValue fill_value q.2))) := by
  intro l
  induction l with
  | nil => rfl
  | cons q rest ih =>
    obtain ⟨n, s⟩ := q
    by_cases h2 : (if s.value = PyVal.missing then s.component.default else s.value)
        = PyVal.missing
    · simp [get_state_fold, h2, hf, ih, resolveValue]
    · simp [get_state_fold, h2, ih, resolveValue]

/-- Without a fill value, a get_state error always names the type and name of
some matching component whose stored value and default are both missing. -/
theorem get_state_fold_error (e : MissingValueError) :
    ∀ l : List (String × DescriptorSlot),
      get_state_fold PyVal.missing l = Except.error e →
      ∃ n s, (n, s) ∈ l ∧ s.value = PyVal.missing
        ∧ s.component.default = PyVal.missing
        ∧ e.typeName = s.component.typeName
        ∧ e.serializerName = (s.component.name).getD "None" := by
  intro l
  induction l with
  | nil => intro h; simp [get_state_fold] at h
  | cons q rest ih =>
    obtain ⟨n, s⟩ := q
    intro h
    simp only [get_state_fold] at h
    by_cases h2 : (if s.value = PyVal.missing then s.component.default else s.value)
        = PyVal.missing
    · rw [if_pos h2, if_pos trivial] at h
      have he : ({ typeName := s.component.typeName,
                   serializerName := (s.component.name).getD "None" } : MissingValueError)
          = e := by
        injection h
      have hv : s.value = PyVal.missing := by
        by_contra hv
        rw [if_neg hv] at h2
        exact hv h2
      have hd : s.component.default = PyVal.missing := by rwa [if_pos hv] at h2
      exact ⟨n, s, List.mem_cons_self _ _, hv, hd, by rw [← he], by rw [← he]⟩
    · rw [if_neg h2] at h
      cases hrec : get_state_fold PyVal.missing rest with
      | error e2 =>
        rw [hrec] at h
        have : e2 = e := by injection h
        subst this
        obtain ⟨n2, s2, hmem, rest2⟩ := ih hrec
        exact ⟨n2, s2, List.mem_cons_of_mem _ hmem, rest2⟩
      | ok st =>
        rw [hrec] at h
        cases h

/-- Without a fill value, the get_state loop fails as soon as some entry has
neither a stored value nor a default. -/
theorem get_state_fold_missing_errors :
    ∀ (l : List (String × DescriptorSlot)) (n : String) (s : DescriptorSlot),
      (n, s) ∈ l → s.value = PyVal.missing → s.component.default = PyVal.missing →
      ∃ e, get_state_fold PyVal.missing l = Except.error e := by
  intro l
  induction l with
  | nil => intro n s h; cases h
  | cons q rest ih =>
    intro n s hmem hv hd
    obtain ⟨n1, s1⟩ := q
    by_cases h2 : (if s1.value = PyVal.missing then s1.component.default else s1.value)
        = PyVal.missing
    · exact ⟨_, by simp only [get_state_fold]; rw [if_pos h2, if_pos trivial]⟩
    · have hrest : (n, s) ∈ rest := by
        rcases List.mem_cons.mp hmem with he | ht
        · exfalso
          cases he
          rw [if_pos hv] at h2
          exact h2 hd
        · exact ht
      obtain ⟨e, he⟩ := ih n s hrest hv hd
      refine ⟨e, ?_⟩
      simp only [get_state_fold]
      rw [if_neg h2, he]

/-- Mapping the kept name out of the descriptor-resolving filterMap yields a
sublist of the names it started from. -/
theorem map_fst_filterMap_slots (slots : List DescriptorSlot) :
    ∀ l : List (String × Nat),
      ((l.filterMap (fun p => (slots[p.2]?).map (fun s => (p.1, s)))).map Prod.fst).Sublist
        (l.map Prod.fst) := by
  intro l
  induction l with
  | nil => simp
  | cons p rest ih =>
    cases hg : slots[p.2]? with
    | none =>
      simp only [List.filterMap_cons, hg, Option.map_none', List.map_cons]
      exact ih.trans (List.sublist_cons_self _ _)
    | some s =>
      simp only [List.filterMap_cons, hg, Option.map_some', List.map_cons]
      exact ih.cons₂ p.1

/-- The names of the matching descriptors form a sublist of the binding
map's names. -/
theorem matching_descriptors_fst_sublist (cls : ModelClass)
    (settings : List (String × NCVer)) :
    ((get_matching_descriptors cls settings).map Prod.fst).Sublist
      (cls.descIndex.map Prod.fst) := by
  unfold get_matching_descriptors
  exact (map_fst_filterMap_slots cls.slots _).trans
    ((List.filter_sublist _).map Prod.fst)

/-- C7.  When some currently-applicable field has no stored value and its
component no default, `get_state()` without a fill value fails with the
missing-value error, whose payload names the type and name of a field in that
situation, while `get_state(fill_value=X)` under the same conditions succeeds
and maps that field to X. -/
theorem C7_missing_value_policy (cls : ModelClass) (settings : List (String × NCVer))
    (n : String) (slot : DescriptorSlot) (X : PyVal)
    (hnd : (cls.descIndex.map Prod.fst).Nodup)
    (hmem : (n, slot) ∈ get_matching_descriptors cls settings)
    (hval : slot.value = PyVal.missing)
    (hdef : slot.component.default = PyVal.missing)
    (hX : X ≠ PyVal.missing) :
    (∃ e, get_state cls PyVal.missing settings = Except.error e
      ∧ ∃ m t, (m, t) ∈ get_matching_descriptors cls settings
          ∧ t.value = PyVal.missing ∧ t.component.default = PyVal.missing
          ∧ e.typeName = t.component.typeName
          ∧ e.serializerName = (t.component.name).getD "None")
    ∧ (∃ st, get_state cls X settings = Except.ok st ∧ alookup st n = some X) := by
  constructor
  · obtain ⟨e, he⟩ := get_state_fold_missing_errors
      (get_matching_descriptors cls settings) n slot hmem hval hdef
    refine ⟨e, he, ?_⟩
    obtain ⟨m, t, h1, h2, h3, h4, h5⟩ := get_state_fold_error e _ he
    exact ⟨m, t, h1, h2, h3, h4, h5⟩
  · have hnd2 : ((get_matching_descriptors cls settings).map Prod.fst).Nodup :=
      hnd.sublist (matching_descriptors_fst_sublist cls settings)
    have hl := alookup_eq_of_mem (get_matching_descriptors cls settings) n slot hnd2 hmem
    refine ⟨_, get_state_fold_fill X hX _, ?_⟩
    rw [alookup_map_resolve X _ n slot hl]
    simp [resolveValue, hval, hdef]

/-- C7, witness on the class with the single defaultless field "y": no fill
value errors naming Str/y, fill value 7 produces `{y: 7}`. -/
theorem C7_missing_value_policy_witness :
    (∃ e, get_state clsMissing PyVal.missing [] = Except.error e
      ∧ ∃ m t, (m, t) ∈ get_matching_descriptors clsMissing []
          ∧ t.value = PyVal.missing ∧ t.component.default = PyVal.missing
          ∧ e.typeName = t.component.typeName
          ∧ e.serializerName = (t.component.name).getD "None")
    ∧ (∃ st, get_state clsMissing (PyVal.int 7) [] = Except.ok st
        ∧ alookup st "y" = some (PyVal.int 7)) :=
  C7_missing_value_policy clsMissing [] "y" slotMissing (PyVal.int 7)
    (by decide) (by decide) rfl rfl (by decide)

/-- C9.  `get_plugins` keeps exactly the serializer class's direct bases that
are registered capability classes and returns them sorted ascending by their
`total_dependents` attribute; in the concrete conjunct a capability with 0
dependent features, although declared as the later base, is ordered before a
capability whose feature table has one dependent feature. -/
theorem C9_get_plugins_ascending (subclasses : List Nat) (sc : SerializerClassS) :
    (get_plugins subclasses sc).Perm
      (sc.bases.filter (fun b => decide (b.pid ∈ subclasses)))
    ∧ List.Pairwise pluginLe (get_plugins subclasses sc)
    ∧ get_plugins [1, 2]
        { bases := [{ pid := 2,
                      total_dependents := total_dependents_calc
                        [{ func := none, default := PyVal.pynone, disabled := false,
                           override := false, before := none, after := none,
                           pass_method := false, finalizer_takes_result := false,
                           dependent := true }] },
                    { pid := 1, total_dependents := total_dependents_calc [] }] }
      = [{ pid := 1, total_dependents := 0 }, { pid := 2, total_dependents := 1 }] := by
  refine ⟨List.perm_insertionSort pluginLe _, ?_, by decide⟩
  exact List.sorted_insertionSort pluginLe _

/-- A successful lookup names a member of the association list. -/
theorem alookup_mem {κ α : Type} [DecidableEq κ] :
    ∀ (l : List (κ × α)) (k : κ) (x : α), alookup l k = some x → (k, x) ∈ l := by
  intro l
  induction l with
  | nil => intro k x h; simp [alookup] at h
  | cons kv rest ih =>
    intro k x h
    obtain ⟨k1, v1⟩ := kv
    by_cases hk : k1 = k
    · subst hk
      simp only [alookup, if_pos rfl] at h
      cases h
      exact List.mem_cons_self _ _
    · simp only [alookup, if_neg hk] at h
      exact List.mem_cons_of_mem _ (ih k x h)

/-- When no two entries of the binding map share a descriptor, two names
resolving to the same descriptor index are the same name. -/
theorem alookup_snd_inj (d : List (String × Nat))
    (hsnd : (d.map Prod.snd).Nodup) (k1 k2 : String) (i : Nat)
    (h1 : alookup d k1 = some i) (h2 : alookup d k2 = some i) : k1 = k2 := by
  have m1 := alookup_mem d k1 i h1
  have m2 := alookup_mem d k2 i h2
  have he := List.inj_on_of_nodup_map hsnd m1 m2 rfl
  exact (Prod.ext_iff.mp he).1

/-- A set_state iteration on a key absent from the binding map swallows the
KeyError and changes nothing. -/
theorem set_state_step_eq_unknown (c : ModelClass) (kv : String × PyVal)
    (h : alookup c.descIndex kv.1 = none) : set_state_step c kv = c := by
  simp [set_state_step, modelSetItem, h]

/-- A set_state iteration whose descriptor index has no slot changes
nothing (unreachable for compiled classes, whose indices are in range). -/
theorem set_state_step_eq_oob (c : ModelClass) (kv : String × PyVal) (i : Nat)
    (h : alookup c.descIndex kv.1 = some i) (h2 : c.slots[i]? = none) :
    set_state_step c kv = c := by
  simp [set_state_step, modelSetItem, h, h2]

/-- A set_state iteration on a known key rewrites that key's slot value. -/
theorem set_state_step_eq_known (c : ModelClass) (kv : String × PyVal) (i : Nat)
    (s : DescriptorSlot)
    (h : alookup c.descIndex kv.1 = some i) (h2 : c.slots[i]? = some s) :
    set_state_step c kv = { c with slots := c.slots.set i { s with value := kv.2 } } := by
  simp [set_state_step, modelSetItem, h, h2]

/-- One set_state iteration does not touch the binding map. -/
theorem set_state_step_descIndex (c : ModelClass) (kv : String × PyVal) :
    (set_state_step c kv).descIndex = c.descIndex := by
  cases h1 : alookup c.descIndex kv.1 with
  | none => rw [set_state_step_eq_unknown c kv h1]
  | some i =>
    cases h2 : c.slots[i]? with
    | none => rw [set_state_step_eq_oob c kv i h1 h2]
    | some s => rw [set_state_step_eq_known c kv i s h1 h2]

/-- One set_state iteration preserves the number of slots. -/
theorem set_state_step_slots_length (c : ModelClass) (kv : String × PyVal) :
    (set_state_step c kv).slots.length = c.slots.length := by
  cases h1 : alookup c.descIndex kv.1 with
  | none => rw [set_state_step_eq_unknown c kv h1]
  | some i =>
    cases h2 : c.slots[i]? with
    | none => rw [set_state_step_eq_oob c kv i h1 h2]
    | some s =>
      rw [set_state_step_eq_known c kv i s h1 h2]
      simp

/-- set_state does not touch the binding map. -/
theorem set_state_descIndex (state : List (String × PyVal)) :
    ∀ cls : ModelClass, (set_state cls state).descIndex = cls.descIndex := by
  induction state with
  | nil => intro cls; rfl
  | cons kv rest ih =>
    intro cls
    calc (set_state (set_state_step cls kv) rest).descIndex
        = (set_state_step cls kv).descIndex := ih _
      _ = cls.descIndex := set_state_step_descIndex cls kv

/-- A slot that no processed key resolves to is left untouched by
set_state. -/
theorem set_state_slot_untouched (state : List (String × PyVal)) :
    ∀ (cls : ModelClass) (i : Nat),
      (∀ kv ∈ state, alookup cls.descIndex kv.1 ≠ some i) →
      (set_state cls state).slots[i]? = cls.slots[i]? := by
  induction state with
  | nil => intro cls i _; rfl
  | cons kv rest ih =>
    intro cls i h
    have hstep : (set_state_step cls kv).slots[i]? = cls.slots[i]? := by
      cases h1 : alookup cls.descIndex kv.1 with
      | none => rw [set_state_step_eq_unknown cls kv h1]
      | some i2 =>
        cases h2 : cls.slots[i2]? with
        | none => rw [set_state_step_eq_oob cls kv i2 h1 h2]
        | some s =>
          rw [set_state_step_eq_known cls kv i2 s h1 h2]
          have hne : i2 ≠ i := by
            intro e
            exact h kv (List.mem_cons_self _ _) (e ▸ h1)
          exact List.getElem?_set_ne hne
    calc (set_state cls (kv :: rest)).slots[i]?
        = (set_state (set_state_step cls kv) rest).slots[i]? := rfl
      _ = (set_state_step cls kv).slots[i]? := by
          apply ih
          intro kv2 h2
          rw [set_state_step_descIndex]
          exact h kv2 (List.mem_cons_of_mem _ h2)
      _ = cls.slots[i]? := hstep

/-- With distinct state keys and an alias-free binding map, the slot a known
state key resolves to ends up holding that key's value. -/
theorem set_state_slot_written (state : List (String × PyVal)) :
    ∀ (cls : ModelClass) (k : String) (v : PyVal) (i : Nat),
      (state.map Prod.fst).Nodup → (k, v) ∈ state →
      (cls.descIndex.map Prod.snd).Nodup →
      alookup cls.descIndex k = some i → i < cls.slots.length →
      ∃ s0, cls.slots[i]? = some s0
        ∧ (set_state cls state).slots[i]? = some { s0 with value := v } := by
  induction state with
  | nil => intro cls k v i _ hm; cases hm
  | cons kv rest ih =>
    intro cls k v i hnd hm hsnd hak hi
    obtain ⟨k1, v1⟩ := kv
    have hndr : (rest.map Prod.fst).Nodup := (List.nodup_cons.mp (by simpa using hnd)).2
    rcases List.mem_cons.mp hm with he | ht
    · cases he
      have hget : cls.slots[i]? = some cls.slots[i] := List.getElem?_eq_getElem hi
      refine ⟨cls.slots[i], hget, ?_⟩
      have hstep : set_state_step cls (k, v)
          = { cls with slots := cls.slots.set i { cls.slots[i] with value := v } } := by
        exact set_state_step_eq_known cls (k, v) i cls.slots[i] hak hget
      show (set_state (set_state_step cls (k, v)) rest).slots[i]? = _
      rw [hstep]
      rw [set_state_slot_untouched rest _ i ?notouch]
      · exact List.getElem?_set_self hi
      case notouch =>
        intro kv2 h2 he2
        have hk2 : kv2.1 = k := alookup_snd_inj cls.descIndex hsnd kv2.1 k i he2 hak
        have hhead : k ∉ rest.map Prod.fst := (List.nodup_cons.mp (by simpa using hnd)).1
        exact hhead (hk2 ▸ List.mem_map.mpr ⟨kv2, h2, rfl⟩)
    · have hne : k1 ≠ k := by
        intro e
        subst e
        have hhead : k1 ∉ rest.map Prod.fst := (List.nodup_cons.mp (by simpa using hnd)).1
        exact hhead (List.mem_map.mpr ⟨(k1, v), ht, rfl⟩)
      have hstep_d := set_state_step_descIndex cls (k1, v1)
      have hstep_i : (set_state_step cls (k1, v1)).slots[i]? = cls.slots[i]? := by
        cases h1 : alookup cls.descIndex k1 with
        | none => rw [set_state_step_eq_unknown cls (k1, v1) h1]
        | some i2 =>
          cases h2 : cls.slots[i2]? with
          | none => rw [set_state_step_eq_oob cls (k1, v1) i2 h1 h2]
          | some s =>
            rw [set_state_step_eq_known cls (k1, v1) i2 s h1 h2]
            have : i2 ≠ i := by
              intro e
              subst e
              exact hne (alookup_snd_inj cls.descIndex hsnd k1 k i2 h1 hak)
            exact List.getElem?_set_ne this
      obtain ⟨s0, hs0, hfin⟩ := ih (set_state_step cls (k1, v1)) k v i hndr ht
        (by rw [hstep_d]; exact hsnd)
        (by rw [hstep_d]; exact hak)
        (by rw [set_state_step_slots_length]; exact hi)
      exact ⟨s0, by rw [← hstep_i]; exact hs0, hfin⟩

/-- Keys absent from the binding map leave a set_state run unchanged: the
run equals the run over the known-key entries alone. -/
theorem set_state_filter_unknown (state : List (String × PyVal)) :
    ∀ cls : ModelClass,
      set_state cls state
        = set_state cls
            (state.filter (fun kv => (alookup cls.descIndex kv.1).isSome)) := by
  induction state with
  | nil => intro cls; rfl
  | cons kv rest ih =>
    intro cls
    cases h1 : alookup cls.descIndex kv.1 with
    | none =>
      have hstep : set_state_step cls kv = cls := set_state_step_eq_unknown cls kv h1
      show set_state (set_state_step cls kv) rest = _
      rw [hstep, List.filter_cons]
      simp only [h1, Option.isSome_none, Bool.false_eq_true, if_false]
      exact ih cls
    | some i =>
      show set_state (set_state_step cls kv) rest = _
      rw [List.filter_cons]
      simp only [h1, Option.isSome_some, if_true]
      show _ = set_state (set_state_step cls kv)
        (rest.filter (fun kv2 => (alookup cls.descIndex kv2.1).isSome))
      rw [ih (set_state_step cls kv), set_state_step_descIndex]

/-- C8.  set_state on a mapping never raises: unknown keys are ignored (the
run equals the run over the known keys alone), each known key's field ends up
holding its mapped value, and every field whose name is not in the mapping
reads as before.  The binding map is assumed alias-free (no two names share a
descriptor) with in-range descriptor indices, as class compilation produces
for alias-free declarations. -/
theorem C8_permissive_set_state (cls : ModelClass) (state : List (String × PyVal))
    (hkeys : (state.map Prod.fst).Nodup)
    (hsnd : (cls.descIndex.map Prod.snd).Nodup)
    (hwf : ∀ p ∈ cls.descIndex, p.2 < cls.slots.length) :
    set_state cls state
      = set_state cls (state.filter (fun kv => (alookup cls.descIndex kv.1).isSome))
    ∧ (∀ k v i, (k, v) ∈ state → alookup cls.descIndex k = some i →
        modelGetItem (set_state cls state) 0 k = Except.ok v)
    ∧ (∀ k, (∀ v, (k, v) ∉ state) →
        modelGetItem (set_state cls state) 0 k = modelGetItem cls 0 k) := by
  refine ⟨set_state_filter_unknown state cls, ?_, ?_⟩
  · intro k v i hm hak
    have hi : i < cls.slots.length := hwf (k, i) (alookup_mem cls.descIndex k i hak)
    obtain ⟨s0, _, hfin⟩ := set_state_slot_written state cls k v i hkeys hm hsnd hak hi
    simp [modelGetItem, set_state_descIndex, hak, hfin]
  · intro k hk
    cases h1 : alookup cls.descIndex k with
    | none =>
      simp [modelGetItem, set_state_descIndex, h1]
    | some i =>
      have huntouched : (set_state cls state).slots[i]? = cls.slots[i]? := by
        apply set_state_slot_untouched
        intro kv2 h2 he2
        have hk2 : kv2.1 = k := alookup_snd_inj cls.descIndex hsnd kv2.1 k i he2 h1
        exact hk (kv2.2) (by rw [← hk2]; exact h2)
      simp [modelGetItem, set_state_descIndex, h1, huntouched]

/-- C8, witness on the two-field class with the mapping
`{u: 5, zzz: 1}`: the unknown key "zzz" is dropped, "u" is written, "w" keeps
its value. -/
theorem C8_permissive_set_state_witness :
    set_state clsTwoFields [("u", PyVal.int 5), ("zzz", PyVal.int 1)]
      = set_state clsTwoFields
          ([("u", PyVal.int 5), ("zzz", PyVal.int 1)].filter
            (fun kv => (alookup clsTwoFields.descIndex kv.1).isSome))
    ∧ (∀ k v i, (k, v) ∈ [("u", PyVal.int 5), ("zzz", PyVal.int 1)] →
        alookup clsTwoFields.descIndex k = some i →
        modelGetItem (set_state clsTwoFields [("u", PyVal.int 5), ("zzz", PyVal.int 1)]) 0 k
          = Except.ok v)
    ∧ (∀ k, (∀ v, (k, v) ∉ [("u", PyVal.int 5), ("zzz", PyVal.int 1)]) →
        modelGetItem (set_state clsTwoFields [("u", PyVal.int 5), ("zzz", PyVal.int 1)]) 0 k
          = modelGetItem clsTwoFields 0 k) :=
  C8_permissive_set_state clsTwoFields [("u", PyVal.int 5), ("zzz", PyVal.int 1)]
    (by decide) (by decide) (by decide)

/-- C10.  The claim says a Feature carrying both an executable hook and a
constant default is rejected at construction.  `_Feature.__post_init__`
(plugin.py lines 55-57) tests `if self.func and self.default`, i.e. Python
truthiness: with a hook and the falsy constant default 0 the feature is
constructed without error, contradicting the guard's own error message
("cannot simultaneously hold a func and a value"); a truthy default is
rejected as documented. -/
theorem C10_falsy_default_not_rejected :
    feature_post_init
        { func := some 0, default := PyVal.int 0, disabled := false, override := false,
          before := none, after := none, pass_method := false,
          finalizer_takes_result := false, dependent := false }
      = Except.ok ()
    ∧ feature_post_init
        { func := some 0, default := PyVal.int 1, disabled := false, override := false,
          before := none, after := none, pass_method := false,
          finalizer_takes_result := false, dependent := false }
      = Except.error "feature cannot simultaneously hold a func and a value" :=
  ⟨rfl, rfl⟩

end Netcast
